import Mathlib

/-!
Verification of the path-extraction core in `refinery/units/formats/__init__.py`.

Strings and byte buffers are modelled as `List Char` and `List Nat`.  The
wildcard matching performed by Python's `fnmatch` module (used through
`fnmatch.translate` + `re.fullmatch` in `PathPattern.check` and through
`fnmatch.fnmatch` in `PathPattern.reach`) is modelled by `globMatch`, with
the glob semantics the specification describes: a star matches any run of
characters, a question mark matches exactly one character, every other
character matches itself literally.  All definitions are executable so that
concrete runs can be evaluated inside proofs.
-/

/-- Wildcard matching: `globMatch p s` holds iff the whole string `s`
matches the glob pattern `p`, where in `p` a star matches any run of
characters (including slashes, as `fnmatch` does), a question mark matches
exactly one character, and any other character only matches itself. -/
def globMatch : List Char → List Char → Bool
  | [], s => s.isEmpty
  | c :: p, s =>
    if c = '*' then s.tails.any fun t => globMatch p t
    else
      match s with
      | [] => false
      | c1 :: s1 => (c == '?' || c == c1) && globMatch p s1

theorem globMatch_nil (s : List Char) : globMatch [] s = s.isEmpty := by
  simp [globMatch]

theorem globMatch_star (p : List Char) (s : List Char) :
    globMatch ('*' :: p) s = s.tails.any fun t => globMatch p t := by
  simp [globMatch]

theorem globMatch_cons_nil (c : Char) (p : List Char) (h : c ≠ '*') :
    globMatch (c :: p) [] = false := by
  simp [globMatch, h]

theorem globMatch_cons_cons (c : Char) (p : List Char) (c1 : Char) (s1 : List Char)
    (h : c ≠ '*') :
    globMatch (c :: p) (c1 :: s1) = ((c == '?' || c == c1) && globMatch p s1) := by
  simp [globMatch, h]

/-- Splitting lemma for glob matching: if `s` matches the concatenated
pattern `p1 ++ p2` then `s` splits into `t ++ u` with `t` matching `p1`
and `u` matching `p2`. -/
theorem globMatch_append_split : ∀ p1 p2 s : List Char,
    globMatch (p1 ++ p2) s = true →
    ∃ t u, t ++ u = s ∧ globMatch p1 t = true ∧ globMatch p2 u = true := by
  intro p1
  induction p1 with
  | nil =>
    intro p2 s h
    exact ⟨[], s, rfl, rfl, h⟩
  | cons c p ih =>
    intro p2 s h
    by_cases hc : c = '*'
    · subst hc
      rw [List.cons_append, globMatch_star, List.any_eq_true] at h
      obtain ⟨t0, ht0, hm⟩ := h
      rw [List.mem_tails] at ht0
      obtain ⟨pre, hpre⟩ := ht0
      obtain ⟨t, u, htu, hp, hq⟩ := ih p2 t0 hm
      refine ⟨pre ++ t, u, ?_, ?_, hq⟩
      · rw [List.append_assoc, htu, hpre]
      · rw [globMatch_star, List.any_eq_true]
        exact ⟨t, (List.mem_tails _ _).2 ⟨pre, rfl⟩, hp⟩
    · cases s with
      | nil =>
        rw [List.cons_append, globMatch_cons_nil c (p ++ p2) hc] at h
        exact absurd h (by simp)
      | cons c1 s1 =>
        rw [List.cons_append, globMatch_cons_cons c (p ++ p2) c1 s1 hc,
          Bool.and_eq_true] at h
        obtain ⟨hcc, hrest⟩ := h
        obtain ⟨t, u, htu, hp, hq⟩ := ih p2 s1 hrest
        refine ⟨c1 :: t, u, ?_, ?_, hq⟩
        · rw [List.cons_append, htu]
        · rw [globMatch_cons_cons c p c1 t hc, Bool.and_eq_true]
          exact ⟨hcc, hp⟩

/-- Helper for `computeStops`: walks the remaining pattern characters with
the already-consumed reversed-free accumulator `pre`; whenever the next
character is one of `/`, `*`, `?` the accumulated literal text so far is
recorded as a stop, mirroring the list comprehension
`[pp[:k] for k, c in enumerate(pp) if c in '/*?']`. -/
def computeStopsAux (pre : List Char) : List Char → List (List Char)
  | [] => []
  | c :: rest =>
    if c = '/' ∨ c = '*' ∨ c = '?' then pre :: computeStopsAux (pre ++ [c]) rest
    else computeStopsAux (pre ++ [c]) rest

/-- Derived stop list of a wildcard pattern: for every position holding one
of the characters `/`, `*`, `?`, the text of the pattern strictly before
that position. -/
def computeStops (pp : List Char) : List (List Char) := computeStopsAux [] pp

theorem computeStopsAux_mem : ∀ (rest pre stop : List Char),
    stop ∈ computeStopsAux pre rest → ∃ u, stop ++ u = pre ++ rest := by
  intro rest
  induction rest with
  | nil => intro pre stop h; simp [computeStopsAux] at h
  | cons c rest ih =>
    intro pre stop h
    rw [computeStopsAux] at h
    by_cases hcs : c = '/' ∨ c = '*' ∨ c = '?'
    · rw [if_pos hcs, List.mem_cons] at h
      rcases h with h | h
      · exact ⟨c :: rest, by rw [h]⟩
      · obtain ⟨u, hu⟩ := ih (pre ++ [c]) stop h
        exact ⟨u, by rw [hu, List.append_assoc]; rfl⟩
    · rw [if_neg hcs] at h
      obtain ⟨u, hu⟩ := ih (pre ++ [c]) stop h
      exact ⟨u, by rw [hu, List.append_assoc]; rfl⟩

/-- Every stop of a wildcard pattern is an initial segment of the pattern. -/
theorem computeStops_mem (pp stop : List Char) (h : stop ∈ computeStops pp) :
    ∃ u, stop ++ u = pp := computeStopsAux_mem pp [] stop h

/-- Model of the `PathPattern` class (wildcard case): the derived stop list
and the pattern itself, whose translated regular expression is modelled by
full glob matching.  The raw-regular-expression construction paths
(`regex=True` or a precompiled `re.Pattern`, which leave `stops` empty) are
outside the claims under verification, which all speak about wildcard
patterns. -/
structure PathPattern where
  stops : List (List Char)
  pattern : List Char

/-- Constructor branch of `PathPattern.__init__` for a wildcard string:
derives the stop list and keeps the pattern for full matching. -/
def mkPathPattern (pp : List Char) : PathPattern :=
  { stops := computeStops pp, pattern := pp }

/-- Model of `PathPattern.reach`: true outright when there are no stops,
otherwise true iff the path `fnmatch`-matches one of the stops. -/
def PathPattern.reach (P : PathPattern) (path : List Char) : Bool :=
  if P.stops.isEmpty then true
  else P.stops.any fun stop => globMatch stop path

/-- Model of `PathPattern.check`: full match of the path against the
pattern (Python `self.pattern.fullmatch(path)` on the translated glob). -/
def PathPattern.check (P : PathPattern) (path : List Char) : Bool :=
  globMatch P.pattern path

/-- Payload of an `UnpackResult`: either a concrete byte sequence or a
deferred zero-argument producer, modelling the Python union
`ByteString | Callable[[], ByteString]`. -/
inductive PayloadData where
  | eager : List Nat → PayloadData
  | deferred : (Unit → List Nat) → PayloadData

/-- Model of the `UnpackResult` class: a path together with a payload that
may still be deferred. -/
structure UnpackResult where
  path : List Char
  data : PayloadData

/-- Model of `UnpackResult.get_data`: if the stored payload is callable it
is invoked and the stored value replaced by the produced bytes; the bytes
are returned.  Python mutates the object in place, so the model returns
the produced bytes together with the updated object. -/
def UnpackResult.get_data : UnpackResult → List Nat × UnpackResult
  | ⟨p, .eager b⟩ => (b, ⟨p, .eager b⟩)
  | ⟨p, .deferred f⟩ => (f (), ⟨p, .eager (f ())⟩)

theorem get_data_path (r : UnpackResult) : (r.get_data).2.path = r.path := by
  obtain ⟨p, d⟩ := r
  cases d <;> rfl

/-- Adler-32 checksum over a byte sequence, as `zlib.adler32` computes it
with the default starting value 1: the running byte sum `a` and the running
sum-of-sums `b`, both modulo 65521, combined as `b * 65536 + a`. -/
def adler32 (data : List Nat) : Nat :=
  let r := data.foldl (fun ab x =>
    let a := (ab.1 + x) % 65521
    (a, (ab.2 + a) % 65521)) (1, 0)
  r.2 * 65536 + r.1

/-- One output of the orchestrator: in list mode the (possibly joined)
path string, otherwise a payload labelled with its (possibly joined)
path. -/
inductive Emission where
  | pathOnly : List Char → Emission
  | payload : List Nat → List Char → Emission
deriving DecidableEq

/-- Lookup in the deduplication ledger (the `paths` dictionary): the set of
checksums recorded for a path, or `none` when the path has no entry yet. -/
def ledgerGet : List (List Char × List Nat) → List Char → Option (List Nat)
  | [], _ => none
  | e :: rest, p => if e.1 = p then some e.2 else ledgerGet rest p

/-- Model of `paths[path].add(csum)` on the defaultdict of sets: append the
checksum to the entry of the path, creating the entry when missing and
keeping the checksum set duplicate-free. -/
def ledgerAdd : List (List Char × List Nat) → List Char → Nat →
    List (List Char × List Nat)
  | [], p, c => [(p, [c])]
  | e :: rest, p, c =>
    if e.1 = p then (e.1, if c ∈ e.2 then e.2 else e.2 ++ [c]) :: rest
    else e :: ledgerAdd rest p c

/-- Configuration of `PathExtractorUnit`: the compiled pattern list and the
`list` and `join` switches.  The `regex` switch only changes how patterns
are compiled and is absorbed into the pattern list. -/
structure PathExtractorArgs where
  patterns : List PathPattern
  list : Bool
  join : Bool

/-- Model of `PathExtractorUnit._check_path`: does any configured pattern
fully match the path. -/
def check_path (pats : List PathPattern) (path : List Char) : Bool :=
  pats.any fun P => P.check path

/-- Model of `PathExtractorUnit._check_reachable`: does any configured
pattern consider the path reachable. -/
def check_reachable (pats : List PathPattern) (path : List Char) : Bool :=
  pats.any fun P => P.reach path

/-- Model of POSIX `os.path.join` on two components: an absolute second
component discards the first; an empty first component or one ending in a
slash is plain concatenation; otherwise a slash is inserted. -/
def osPathJoin (root path : List Char) : List Char :=
  if path.head? = some '/' then path
  else if root = [] then path
  else if root.getLast? = some '/' then root ++ path
  else root ++ '/' :: path

/-- Default element used for positional access into the item store. -/
def dfltItem : UnpackResult := ⟨[], .eager []⟩

/-- First pass of `PathExtractorUnit.process` (source lines 100-104): walk
the unpacked items once; every item whose path matches some pattern is
collected (as its index `i` into the store), and — unless in list mode —
its payload is materialized in place by calling `get_data`.  Returns the
updated store together with the collected indices. -/
def firstPass (args : PathExtractorArgs) :
    List UnpackResult → Nat → List UnpackResult × List Nat
  | [], _ => ([], [])
  | r :: rest, i =>
    let rec0 := firstPass args rest (i + 1)
    if check_path args.patterns r.path then
      ((if args.list then r else (r.get_data).2) :: rec0.1, i :: rec0.2)
    else (r :: rec0.1, rec0.2)

/-- Body of the second-pass inner loop of `PathExtractorUnit.process`
(source lines 108-126) for one pattern `P` and one collected item (at
index `i` of the store): when the item's path fully matches `P`, in list
mode the (optionally joined) path is emitted with no checksum bookkeeping;
in non-list mode the Adler-32 checksum of the materialized payload is
computed, a candidate whose checksum is already recorded for its path in
the shared ledger is silently skipped, a candidate whose path is recorded
with only different checksums is emitted with a duplicate-path warning,
and a fresh path is emitted after recording its checksum.  Both `get_data`
calls of the source (one for the checksum, one in the final `yield`) are
performed and their in-place updates stored.  Returns the updated store,
the updated ledger, the emissions and the warned paths, in order. -/
def patternStep (args : PathExtractorArgs) (P : PathPattern) (root : List Char)
    (i : Nat) (st : List UnpackResult) (L : List (List Char × List Nat)) :
    List UnpackResult × List (List Char × List Nat) × List Emission × List (List Char) :=
  let r := st.getD i dfltItem
  let path := r.path
  if P.check path then
    if args.list then
      (st, L, [.pathOnly (if args.join then osPathJoin root path else path)], [])
    else
      let st1 := st.set i (r.get_data).2
      let csum := adler32 (r.get_data).1
      let emitWith := fun (warn : Bool) =>
        let L1 := ledgerAdd L path csum
        let r1 := st1.getD i dfltItem
        let st2 := st1.set i (r1.get_data).2
        (st2, L1, [Emission.payload (r1.get_data).1
          (if args.join then osPathJoin root path else path)],
          if warn then [path] else [])
      match ledgerGet L path with
      | some cs => if csum ∈ cs then (st1, L, [], []) else emitWith true
      | none => emitWith false
  else (st, L, [], [])

/-- Inner loop of the second pass of `PathExtractorUnit.process`: fold
`patternStep` over the collected item indices in discovery order,
threading store and ledger and concatenating emissions and warnings. -/
def patternPass (args : PathExtractorArgs) (P : PathPattern) (root : List Char) :
    List Nat → List UnpackResult → List (List Char × List Nat) →
    List UnpackResult × List (List Char × List Nat) × List Emission × List (List Char)
  | [], st, L => (st, L, [], [])
  | i :: rest, st, L =>
    let s1 := patternStep args P root i st L
    let s2 := patternPass args P root rest s1.1 s1.2.1
    (s2.1, s2.2.1, s1.2.2.1 ++ s2.2.2.1, s1.2.2.2 ++ s2.2.2.2)

/-- Outer loop of the second pass of `PathExtractorUnit.process` (source
lines 106-126): run `patternPass` for every pattern in declaration order,
threading the store and the shared deduplication ledger, concatenating
emissions and warnings. -/
def patternsPass (args : PathExtractorArgs) (root : List Char) :
    List PathPattern → List Nat → List UnpackResult →
    List (List Char × List Nat) →
    List UnpackResult × List (List Char × List Nat) × List Emission × List (List Char)
  | [], _, st, L => (st, L, [], [])
  | P :: Ps, idxs, st, L =>
    let rec0 := patternPass args P root idxs st L
    let rec1 := patternsPass args root Ps idxs rec0.1 rec0.2.1
    (rec1.1, rec1.2.1, rec0.2.2.1 ++ rec1.2.2.1, rec0.2.2.2 ++ rec1.2.2.2)

/-- Model of `PathExtractorUnit.process`.  The external producer `unpack`
is modelled by the input item list; the join root (read off the input
chunk's own metadata, empty when absent) is passed in directly.  Returns
the emissions, the warned duplicate paths, and the final state of every
input item (mirroring Python's in-place mutation of the unpacked
objects). -/
def process (args : PathExtractorArgs) (root : List Char)
    (items : List UnpackResult) :
    List Emission × List (List Char) × List UnpackResult :=
  let fp := firstPass args items 0
  let sp := patternsPass args root args.patterns fp.2 fp.1 []
  (sp.2.2.1, sp.2.2.2, sp.1)

/-- Failure modes of the memory reader: the modelled
`EndOfStringNotFound` exception, and a Python `IndexError` from an
out-of-bounds byte access. -/
inductive MemError where
  | endOfStringNotFound
  | indexError
deriving DecidableEq

/-- Position of the first zero byte of a list, if any. -/
def findZeroList : List Nat → Option Nat
  | [] => none
  | x :: rest => if x = 0 then some 0 else (findZeroList rest).map (· + 1)

/-- Model of `data.find(b'\x5c0', start)` (returning `none` instead of -1):
index of the first zero byte at or after `start`. -/
def bytesFind0 (data : List Nat) (start : Nat) : Option Nat :=
  (findZeroList (data.drop start)).map (· + start)

/-- One step structure of the UTF-16 terminator scan
`for end in range(start, len(data), 2)` over the remaining bytes: a zero
at the current position followed by a second zero ends the scan at the
current offset; a zero at the very last position makes the code read one
byte past the end (`data[end + 1]`), an `IndexError`; otherwise the scan
advances by two; an exhausted range raises `EndOfStringNotFound`. -/
def utf16ScanList : List Nat → Except MemError Nat
  | [] => .error .endOfStringNotFound
  | [x] => if x = 0 then .error .indexError else .error .endOfStringNotFound
  | x :: y :: rest =>
    if x = 0 then
      if y = 0 then .ok 0 else (utf16ScanList rest).map (· + 2)
    else (utf16ScanList rest).map (· + 2)

/-- UTF-16 terminator scan from `start`, as an absolute end offset. -/
def utf16End (data : List Nat) (start : Nat) : Except MemError Nat :=
  (utf16ScanList (data.drop start)).map (· + start)

/-- Python slice `data[start:end]` with a possibly absent end. -/
def pySlice (data : List Nat) (start : Nat) : Option Nat → List Nat
  | none => data.drop start
  | some e => (data.take e).drop start

/-- Model of `MemoryExtractorUnit._read_from_memory`.  The offset oracle is
external; it supplies the start offset and an optional end offset.  In
ASCII mode the end offset is the first zero byte at or after the start,
with `EndOfStringNotFound` when there is none; in UTF-16 mode it is the
first aligned pair of zero bytes found by stepping two bytes at a time.
When a nonzero count is configured, `start + count` caps the end offset
(and is the end offset when none was determined).  The result is the slice
from start to the effective end. -/
def read_from_memory (ascii utf16 : Bool) (count : Nat) (data : List Nat)
    (start : Nat) (oracleEnd : Option Nat) : Except MemError (List Nat) :=
  let eRes : Except MemError (Option Nat) :=
    if ascii then
      match bytesFind0 data start with
      | some i => .ok (some i)
      | none => .error .endOfStringNotFound
    else if utf16 then
      (utf16End data start).map some
    else .ok oracleEnd
  match eRes with
  | .error err => .error err
  | .ok e =>
    let e1 : Option Nat :=
      if count ≠ 0 then
        some (match e with
          | none => start + count
          | some v => min v (start + count))
      else e
    .ok (pySlice data start e1)

theorem getD_set_ne {α : Type} (l : List α) (i j : Nat) (a d : α) (h : i ≠ j) :
    (l.set i a).getD j d = l.getD j d := by
  simp [List.getD_eq_getElem?_getD, List.getElem?_set_ne h]

theorem getD_drop {α : Type} (l : List α) (i j : Nat) (d : α) :
    (l.drop i).getD j d = l.getD (i + j) d := by
  simp [List.getD_eq_getElem?_getD, List.getElem?_drop]

/-- Characterization of `findZeroList` returning a position: that position
holds a zero byte, is inside the list, and no earlier position holds a
zero byte. -/
theorem findZeroList_some : ∀ (l : List Nat) (k : Nat), findZeroList l = some k →
    k < l.length ∧ l.getD k 1 = 0 ∧ ∀ j, j < k → l.getD j 1 ≠ 0 := by
  intro l
  induction l with
  | nil => intro k h; simp [findZeroList] at h
  | cons x rest ih =>
    intro k h
    rw [findZeroList] at h
    by_cases hx : x = 0
    · rw [if_pos hx, Option.some_inj] at h
      subst h
      exact ⟨by simp, by simpa using hx, by omega⟩
    · rw [if_neg hx, Option.map_eq_some'] at h
      obtain ⟨k1, hk1, hk⟩ := h
      obtain ⟨h1, h2, h3⟩ := ih k1 hk1
      subst hk
      refine ⟨by simpa using h1, by simpa using h2, ?_⟩
      intro j hj
      cases j with
      | zero => simpa using hx
      | succ j1 => simpa using h3 j1 (by omega)

/-- Characterization of `findZeroList` returning nothing: no position of
the list holds a zero byte. -/
theorem findZeroList_none : ∀ l : List Nat,
    findZeroList l = none ↔ ∀ j, j < l.length → l.getD j 1 ≠ 0 := by
  intro l
  induction l with
  | nil => simp [findZeroList]
  | cons x rest ih =>
    rw [findZeroList]
    by_cases hx : x = 0
    · rw [if_pos hx]
      simp only [reduceCtorEq, false_iff, not_forall]
      exact ⟨0, by simpa using hx⟩
    · rw [if_neg hx]
      simp only [Option.map_eq_none', ih]
      constructor
      · intro h j hj
        cases j with
        | zero => simpa using hx
        | succ j1 => simpa using h j1 (by simpa using hj)
      · intro h j hj
        simpa using h (j + 1) (by simpa using hj)

/-- Specification of a first zero byte at or after a start offset. -/
def isFirstZeroFrom (data : List Nat) (start i : Nat) : Prop :=
  start ≤ i ∧ i < data.length ∧ data.getD i 1 = 0 ∧
    ∀ j, start ≤ j → j < i → data.getD j 1 ≠ 0

theorem bytesFind0_some (data : List Nat) (start i : Nat)
    (h : bytesFind0 data start = some i) : isFirstZeroFrom data start i := by
  rw [bytesFind0, Option.map_eq_some'] at h
  obtain ⟨k, hk, hik⟩ := h
  obtain ⟨h1, h2, h3⟩ := findZeroList_some (data.drop start) k hk
  rw [List.length_drop] at h1
  rw [getD_drop] at h2
  subst hik
  refine ⟨by omega, by omega, by rw [Nat.add_comm] at h2; exact h2, ?_⟩
  intro j hj1 hj2
  have := h3 (j - start) (by omega)
  rw [getD_drop] at this
  have hj : start + (j - start) = j := by omega
  rw [hj] at this
  exact this

theorem bytesFind0_none (data : List Nat) (start : Nat) :
    bytesFind0 data start = none ↔
      ∀ j, start ≤ j → j < data.length → data.getD j 1 ≠ 0 := by
  rw [bytesFind0, Option.map_eq_none', findZeroList_none]
  constructor
  · intro h j hj1 hj2
    have := h (j - start) (by rw [List.length_drop]; omega)
    rw [getD_drop] at this
    have hj : start + (j - start) = j := by omega
    rw [hj] at this
    exact this
  · intro h j hj
    rw [List.length_drop] at hj
    rw [getD_drop]
    exact h (start + j) (by omega) (by omega)

theorem firstPass_list (args : PathExtractorArgs) (h : args.list = true) :
    ∀ (l : List UnpackResult) (i : Nat), (firstPass args l i).1 = l := by
  intro l
  induction l with
  | nil => intro i; rfl
  | cons r rest ih =>
    intro i
    rw [firstPass]
    by_cases hc : check_path args.patterns r.path = true
    · simp only [hc, if_true, h, ih]
    · simp only [hc, if_false, Bool.false_eq_true, ih]

theorem firstPass_keep (args : PathExtractorArgs) :
    ∀ (l : List UnpackResult) (i k : Nat) (d : UnpackResult),
    check_path args.patterns ((l.getD k d).path) = false →
    (firstPass args l i).1.getD k d = l.getD k d := by
  intro l
  induction l with
  | nil => intro i k d _; rfl
  | cons r rest ih =>
    intro i k d hk
    rw [firstPass]
    cases k with
    | zero =>
      simp only [List.getD_cons_zero] at hk
      simp only [hk, Bool.false_eq_true, if_false, List.getD_cons_zero]
    | succ k1 =>
      simp only [List.getD_cons_succ] at hk ⊢
      by_cases hc : check_path args.patterns r.path = true
      · simp only [hc, if_true, List.getD_cons_succ]
        exact ih (i + 1) k1 d hk
      · simp only [hc, Bool.false_eq_true, if_false, List.getD_cons_succ]
        exact ih (i + 1) k1 d hk

theorem firstPass_idx (args : PathExtractorArgs) (d : UnpackResult) :
    ∀ (l : List UnpackResult) (i j : Nat), j ∈ (firstPass args l i).2 →
    i ≤ j ∧ check_path args.patterns ((l.getD (j - i) d).path) = true := by
  intro l
  induction l with
  | nil => intro i j h; simp [firstPass] at h
  | cons r rest ih =>
    intro i j h
    rw [firstPass] at h
    by_cases hc : check_path args.patterns r.path = true
    · simp only [hc, if_true, List.mem_cons] at h
      rcases h with h | h
      · subst h
        simp only [Nat.sub_self, List.getD_cons_zero]
        exact ⟨Nat.le_refl _, hc⟩
      · obtain ⟨h1, h2⟩ := ih (i + 1) j h
        refine ⟨by omega, ?_⟩
        have hji : j - i = (j - (i + 1)) + 1 := by omega
        rw [hji, List.getD_cons_succ]
        exact h2
    · simp only [hc, Bool.false_eq_true, if_false] at h
      obtain ⟨h1, h2⟩ := ih (i + 1) j h
      refine ⟨by omega, ?_⟩
      have hji : j - i = (j - (i + 1)) + 1 := by omega
      rw [hji, List.getD_cons_succ]
      exact h2

theorem patternStep_keep (args : PathExtractorArgs) (P : PathPattern)
    (root : List Char) (i : Nat) (st : List UnpackResult)
    (L : List (List Char × List Nat)) (j : Nat) (d : UnpackResult) (hij : i ≠ j) :
    (patternStep args P root i st L).1.getD j d = st.getD j d := by
  rw [patternStep]
  by_cases hc : P.check (st.getD i dfltItem).path = true
  · by_cases hl : args.list = true
    · simp only [hc, if_true, hl]
    · simp only [hc, if_true, hl, Bool.false_eq_true, if_false]
      cases hg : ledgerGet L (st.getD i dfltItem).path with
      | some cs =>
        by_cases hm : adler32 ((st.getD i dfltItem).get_data).1 ∈ cs
        · simp only [hm, if_true, getD_set_ne _ _ _ _ _ hij]
        · simp only [hm, if_false, getD_set_ne _ _ _ _ _ hij]
      | none =>
        simp only [getD_set_ne _ _ _ _ _ hij]
  · simp only [hc, Bool.false_eq_true, if_false]

theorem patternStep_list (args : PathExtractorArgs) (P : PathPattern)
    (root : List Char) (i : Nat) (st : List UnpackResult)
    (L : List (List Char × List Nat)) (hl : args.list = true) :
    (patternStep args P root i st L).1 = st := by
  rw [patternStep]
  by_cases hc : P.check (st.getD i dfltItem).path = true
  · simp only [hc, if_true, hl]
  · simp only [hc, Bool.false_eq_true, if_false]

theorem patternPass_keep (args : PathExtractorArgs) (P : PathPattern)
    (root : List Char) (j : Nat) (d : UnpackResult) :
    ∀ (idxs : List Nat) (st : List UnpackResult)
      (L : List (List Char × List Nat)), j ∉ idxs →
    (patternPass args P root idxs st L).1.getD j d = st.getD j d := by
  intro idxs
  induction idxs with
  | nil => intro st L _; rfl
  | cons i rest ih =>
    intro st L hj
    rw [List.mem_cons, not_or] at hj
    rw [patternPass]
    simp only
    rw [ih _ _ hj.2, patternStep_keep args P root i st L j d (fun h => hj.1 h.symm)]

theorem patternPass_list (args : PathExtractorArgs) (P : PathPattern)
    (root : List Char) (hl : args.list = true) :
    ∀ (idxs : List Nat) (st : List UnpackResult)
      (L : List (List Char × List Nat)),
    (patternPass args P root idxs st L).1 = st := by
  intro idxs
  induction idxs with
  | nil => intro st L; rfl
  | cons i rest ih =>
    intro st L
    rw [patternPass]
    simp only
    rw [ih, patternStep_list args P root i st L hl]

theorem patternsPass_keep (args : PathExtractorArgs) (root : List Char)
    (j : Nat) (d : UnpackResult) :
    ∀ (Ps : List PathPattern) (idxs : List Nat) (st : List UnpackResult)
      (L : List (List Char × List Nat)), j ∉ idxs →
    (patternsPass args root Ps idxs st L).1.getD j d = st.getD j d := by
  intro Ps
  induction Ps with
  | nil => intro idxs st L _; rfl
  | cons P rest ih =>
    intro idxs st L hj
    rw [patternsPass]
    simp only
    rw [ih _ _ _ hj, patternPass_keep args P root j d _ _ _ hj]

theorem patternsPass_list (args : PathExtractorArgs) (root : List Char)
    (hl : args.list = true) :
    ∀ (Ps : List PathPattern) (idxs : List Nat) (st : List UnpackResult)
      (L : List (List Char × List Nat)),
    (patternsPass args root Ps idxs st L).1 = st := by
  intro Ps
  induction Ps with
  | nil => intro idxs st L; rfl
  | cons P rest ih =>
    intro idxs st L
    rw [patternsPass]
    simp only
    rw [ih, patternPass_list args P root hl]

/-- Claim C1, counterexample: for the wildcard pattern consisting of a
single star, the full-match check accepts the path "a" while the
reachability pre-check rejects it, so check being true does not imply
reach being true on the same path. -/
theorem C1_full_path_cex :
    (mkPathPattern ['*']).check ['a'] = true ∧
    (mkPathPattern ['*']).reach ['a'] = false := by
  decide

/-- Claim C1 (amended): reach is not a sound necessary condition on the
full path itself; what holds is that when the full-match check accepts a
path, every derived stop wildcard-matches some initial segment of that
path, so reach returns true on that initial segment (the hierarchy level
the stop belongs to). -/
theorem C1_reach_on_initial_segment (pp s : List Char)
    (h : (mkPathPattern pp).check s = true) :
    ∀ stop ∈ (mkPathPattern pp).stops,
      ∃ t u, t ++ u = s ∧ globMatch stop t = true ∧
        (mkPathPattern pp).reach t = true := by
  intro stop hstop
  obtain ⟨rest, hrest⟩ := computeStops_mem pp stop hstop
  have hg : globMatch (stop ++ rest) s = true := by
    rw [hrest]
    exact h
  obtain ⟨t, u, htu, hp, _⟩ := globMatch_append_split stop rest s hg
  refine ⟨t, u, htu, hp, ?_⟩
  rw [PathPattern.reach, if_neg, List.any_eq_true]
  · exact ⟨stop, hstop, hp⟩
  · intro hemp
    rw [List.isEmpty_iff] at hemp
    rw [hemp] at hstop
    simp at hstop

theorem C1_reach_on_initial_segment_witness :
    (mkPathPattern ['a', '/', 'b']).check ['a', '/', 'b'] = true ∧
    (∃ t u, t ++ u = ['a', '/', 'b'] ∧ globMatch ['a'] t = true ∧
      (mkPathPattern ['a', '/', 'b']).reach t = true) :=
  ⟨by decide,
   C1_reach_on_initial_segment ['a', '/', 'b'] ['a', '/', 'b'] (by decide)
     ['a'] (by decide)⟩

/-- Claim C7: materializing an item is idempotent — after one `get_data`
call the stored payload is the produced byte sequence, and a second call
returns the very same bytes without changing the item again, so a deferred
producer is invoked at most once. -/
theorem C7_get_data_materialize_once (r : UnpackResult) :
    ((r.get_data).2).get_data = ((r.get_data).1, (r.get_data).2) ∧
    ((r.get_data).2).data = PayloadData.eager (r.get_data).1 := by
  obtain ⟨p, d⟩ := r
  cases d <;> exact ⟨rfl, rfl⟩

/-- Claim C9: a wildcard pattern whose first character is a slash, star or
question mark derives the empty string as a stop; the empty string
wildcard-matches only the empty path; when additionally no nonempty stop
matches a nonempty path, reach rejects it; and with the default pattern
list containing only a star, the reachability check rejects every
nonempty path. -/
theorem C9_leading_wildcard_unreachable :
    (∀ (c : Char) (pp : List Char), (c = '/' ∨ c = '*' ∨ c = '?') →
      [] ∈ computeStops (c :: pp))
  ∧ (∀ s : List Char, globMatch [] s = true ↔ s = [])
  ∧ (∀ (c : Char) (pp s : List Char), (c = '/' ∨ c = '*' ∨ c = '?') → s ≠ [] →
      (∀ stop ∈ computeStops (c :: pp), stop ≠ [] → globMatch stop s = false) →
      (mkPathPattern (c :: pp)).reach s = false)
  ∧ (∀ s : List Char, s ≠ [] →
      check_reachable [mkPathPattern ['*']] s = false) := by
  have hmem : ∀ (c : Char) (pp : List Char), (c = '/' ∨ c = '*' ∨ c = '?') →
      [] ∈ computeStops (c :: pp) := by
    intro c pp hc
    rw [computeStops, computeStopsAux, if_pos hc]
    exact List.mem_cons_self _ _
  have hnil : ∀ s : List Char, globMatch [] s = true ↔ s = [] := by
    intro s
    rw [globMatch_nil]
    exact List.isEmpty_iff
  refine ⟨hmem, hnil, ?_, ?_⟩
  · intro c pp s hc hs hstops
    rw [mkPathPattern, PathPattern.reach]
    simp only
    rw [if_neg, List.any_eq_false]
    · intro stop hstop
      by_cases hse : stop = []
      · rw [hse, globMatch_nil]
        simp [hs]
      · simp [hstops stop hstop hse]
    · intro hemp
      rw [List.isEmpty_iff] at hemp
      have := hmem c pp hc
      rw [hemp] at this
      simp at this
  · intro s hs
    have hst : computeStops ['*'] = [[]] := by decide
    rw [check_reachable]
    simp only [List.any_cons, List.any_nil, Bool.or_false]
    rw [mkPathPattern, PathPattern.reach]
    simp only [hst]
    rw [if_neg (by simp)]
    simp [globMatch_nil, List.isEmpty_iff, hs]

theorem C9_leading_wildcard_unreachable_witness :
    (['a'] ≠ ([] : List Char)) ∧
    check_reachable [mkPathPattern ['*']] ['a'] = false :=
  ⟨by decide, C9_leading_wildcard_unreachable.2.2.2 ['a'] (by decide)⟩

/-- Claim C4, code bug: in UTF-16 mode on the buffer `b"AB\x5c0"` (bytes
65, 66, 0) starting at offset 0 no aligned pair of two consecutive zero
bytes exists inside the buffer, yet the reader does not fail with the
terminator-not-found condition: the scan hits the zero byte at the last
even offset and reads one byte past the end of the buffer, a Python
`IndexError`.  The second conjunct records that the buffer indeed holds no
aligned zero pair. -/
theorem C4_utf16_oob_read :
    read_from_memory false true 0 [65, 66, 0] 0 none
      = Except.error MemError.indexError
    ∧ ∀ k, 2 * k + 1 < 3 →
        ¬ ([65, 66, 0].getD (2 * k) 1 = 0 ∧ [65, 66, 0].getD (2 * k + 1) 1 = 0) := by
  refine ⟨rfl, ?_⟩
  intro k hk
  have hk0 : k = 0 := by omega
  subst hk0
  decide

/-- Claim C5: ASCII mode with no count bound returns the slice from the
start offset to the first zero byte at or after it (exclusive), and fails
with the terminator-not-found error exactly when no zero byte occurs at or
after the start offset. -/
theorem C5_ascii_terminator (data : List Nat) (start : Nat) (oe : Option Nat) :
    (∀ i, bytesFind0 data start = some i →
      read_from_memory true false 0 data start oe
        = Except.ok ((data.take i).drop start)
      ∧ isFirstZeroFrom data start i)
  ∧ (read_from_memory true false 0 data start oe
        = Except.error MemError.endOfStringNotFound
      ↔ bytesFind0 data start = none)
  ∧ (bytesFind0 data start = none ↔
      ∀ j, start ≤ j → j < data.length → data.getD j 1 ≠ 0) := by
  refine ⟨?_, ?_, bytesFind0_none data start⟩
  · intro i hi
    exact ⟨by simp [read_from_memory, hi, pySlice], bytesFind0_some data start i hi⟩
  · cases hb : bytesFind0 data start with
    | none => simp [read_from_memory, hb]
    | some i => simp [read_from_memory, hb, pySlice]

theorem C5_ascii_terminator_witness :
    bytesFind0 [65, 66, 0, 67, 68] 0 = some 2 ∧
    read_from_memory true false 0 [65, 66, 0, 67, 68] 0 none
      = Except.ok [65, 66] :=
  ⟨by decide, ((C5_ascii_terminator [65, 66, 0, 67, 68] 0 none).1 2 (by decide)).1⟩

/-- Claim C6: with a nonzero maximum count the effective end offset is the
minimum of the terminator-derived end (when the ASCII or UTF-16 flag
produced one) and `start + count`; with no terminator flag and no
oracle-supplied end, `start + count` alone governs. -/
theorem C6_count_cap (data : List Nat) (start count : Nat) (oe : Option Nat)
    (hc : count ≠ 0) :
    (∀ i, bytesFind0 data start = some i →
      read_from_memory true false count data start oe
        = Except.ok ((data.take (min i (start + count))).drop start))
  ∧ (∀ e, utf16End data start = Except.ok e →
      read_from_memory false true count data start oe
        = Except.ok ((data.take (min e (start + count))).drop start))
  ∧ read_from_memory false false count data start none
      = Except.ok ((data.take (start + count)).drop start) := by
  refine ⟨?_, ?_, ?_⟩
  · intro i hi
    simp [read_from_memory, hi, hc, pySlice]
  · intro e he
    simp [read_from_memory, he, hc, pySlice, Except.map]
  · simp [read_from_memory, hc, pySlice]

theorem C6_count_cap_witness :
    (2 ≠ 0) ∧
    read_from_memory false false 2 [65, 66, 67, 68, 69, 70] 1 none
      = Except.ok [66, 67] :=
  ⟨by decide, (C6_count_cap [65, 66, 67, 68, 69, 70] 1 2 none (by decide)).2.2⟩

theorem osPathJoin_absolute (root path : List Char) (h : path.head? = some '/') :
    osPathJoin root path = path := by
  rw [osPathJoin, if_pos h]

theorem osPathJoin_nil_root (path : List Char) : osPathJoin [] path = path := by
  by_cases h : path.head? = some '/'
  · rw [osPathJoin, if_pos h]
  · rw [osPathJoin, if_neg h, if_pos rfl]

/-- Claim C8: an unpacked item whose path matches no configured pattern is
discarded by the first pass and its stored payload is never touched (in
particular a deferred producer is never invoked); and in list mode no
item's payload is ever materialized, whether it matches or not. -/
theorem C8_unmatched_untouched (args : PathExtractorArgs) (root : List Char)
    (items : List UnpackResult) :
    (∀ (i : Nat) (d : UnpackResult),
      check_path args.patterns ((items.getD i d).path) = false →
      (process args root items).2.2.getD i d = items.getD i d)
  ∧ (args.list = true → (process args root items).2.2 = items) := by
  constructor
  · intro i d hi
    have hnot : i ∉ (firstPass args items 0).2 := by
      intro hmem
      have hidx := (firstPass_idx args d items 0 i hmem).2
      rw [Nat.sub_zero, hi] at hidx
      exact Bool.false_ne_true hidx
    show (patternsPass args root args.patterns (firstPass args items 0).2
      (firstPass args items 0).1 []).1.getD i d = items.getD i d
    rw [patternsPass_keep args root i d _ _ _ _ hnot,
      firstPass_keep args items 0 i d hi]
  · intro hl
    show (patternsPass args root args.patterns (firstPass args items 0).2
      (firstPass args items 0).1 []).1 = items
    rw [patternsPass_list args root hl, firstPass_list args hl]

theorem C8_unmatched_untouched_witness :
    check_path [mkPathPattern ['b']]
      ((([⟨['a'], PayloadData.deferred fun _ => [9]⟩] : List UnpackResult).getD
        0 dfltItem).path) = false
    ∧ (process ⟨[mkPathPattern ['b']], false, false⟩ []
        [⟨['a'], PayloadData.deferred fun _ => [9]⟩]).2.2.getD 0 dfltItem
      = ([⟨['a'], PayloadData.deferred fun _ => [9]⟩] : List UnpackResult).getD
        0 dfltItem :=
  ⟨by decide,
   (C8_unmatched_untouched ⟨[mkPathPattern ['b']], false, false⟩ []
     [⟨['a'], PayloadData.deferred fun _ => [9]⟩]).1 0 dfltItem (by decide)⟩

/-- Claim C2, counterexample: with the declared patterns "*.txt" and "*"
and the single candidate item "x.txt" in non-list mode, the orchestrator
emits the item once, not twice — the deduplication ledger is shared across
the pattern iterations, so the second pattern finds the (path, checksum)
pair already recorded and skips the item. -/
theorem C2_two_patterns_cex :
    (process ⟨[mkPathPattern ['*', '.', 't', 'x', 't'], mkPathPattern ['*']],
        false, false⟩ [] [⟨['x', '.', 't', 'x', 't'], .eager [65]⟩]).1
      = [Emission.payload [65] ['x', '.', 't', 'x', 't']]
    ∧ ¬ ((process ⟨[mkPathPattern ['*', '.', 't', 'x', 't'], mkPathPattern ['*']],
        false, false⟩ [] [⟨['x', '.', 't', 'x', 't'], .eager [65]⟩]).1.length = 2) := by
  decide

/-- Claim C2 (amended): with the declared patterns "*.txt" and "*" and one
candidate item "x.txt" in non-list mode, the item is emitted exactly once,
labeled "x.txt", by the first matching pattern; the checksum ledger is
shared across pattern iterations, so the second matching pattern drops the
already-recorded (path, checksum) pair, and no duplicate warning is
raised. -/
theorem C2_first_pattern_emits (d : List Nat) :
    (process ⟨[mkPathPattern ['*', '.', 't', 'x', 't'], mkPathPattern ['*']],
        false, false⟩ [] [⟨['x', '.', 't', 'x', 't'], .eager d⟩]).1
      = [Emission.payload d ['x', '.', 't', 'x', 't']]
    ∧ (process ⟨[mkPathPattern ['*', '.', 't', 'x', 't'], mkPathPattern ['*']],
        false, false⟩ [] [⟨['x', '.', 't', 'x', 't'], .eager d⟩]).2.1 = [] := by
  constructor <;>
  simp [process, firstPass, patternsPass, patternPass, patternStep,
    check_path, PathPattern.check, mkPathPattern, UnpackResult.get_data,
    ledgerGet, ledgerAdd, dfltItem, globMatch]

/-- Claim C3: in non-list mode, for two candidate items matched by the one
configured pattern and sharing the same path, equal payload checksums give
exactly one emission and no diagnostic, while different checksums give
both emissions and exactly one duplicate-path warning. -/
theorem C3_same_path_dedup (pat path : List Char) (d1 d2 : List Nat)
    (h : globMatch pat path = true) :
    (adler32 d1 = adler32 d2 →
      (process ⟨[mkPathPattern pat], false, false⟩ []
          [⟨path, .eager d1⟩, ⟨path, .eager d2⟩]).1
        = [Emission.payload d1 path]
      ∧ (process ⟨[mkPathPattern pat], false, false⟩ []
          [⟨path, .eager d1⟩, ⟨path, .eager d2⟩]).2.1 = [])
    ∧ (adler32 d1 ≠ adler32 d2 →
      (process ⟨[mkPathPattern pat], false, false⟩ []
          [⟨path, .eager d1⟩, ⟨path, .eager d2⟩]).1
        = [Emission.payload d1 path, Emission.payload d2 path]
      ∧ (process ⟨[mkPathPattern pat], false, false⟩ []
          [⟨path, .eager d1⟩, ⟨path, .eager d2⟩]).2.1 = [path]) := by
  constructor
  · intro hcs
    constructor <;>
    simp [process, firstPass, patternsPass, patternPass, patternStep,
      check_path, PathPattern.check, mkPathPattern, UnpackResult.get_data,
      ledgerGet, ledgerAdd, dfltItem, h, hcs]
  · intro hcs
    have hcs2 : adler32 d2 ≠ adler32 d1 := fun hh => hcs hh.symm
    constructor <;>
    simp [process, firstPass, patternsPass, patternPass, patternStep,
      check_path, PathPattern.check, mkPathPattern, UnpackResult.get_data,
      ledgerGet, ledgerAdd, dfltItem, h, hcs2]

theorem C3_same_path_dedup_witness :
    globMatch ['*'] ['a'] = true ∧ adler32 [1] ≠ adler32 [2] ∧
    ((process ⟨[mkPathPattern ['*']], false, false⟩ []
        [⟨['a'], .eager [1]⟩, ⟨['a'], .eager [2]⟩]).1
      = [Emission.payload [1] ['a'], Emission.payload [2] ['a']]
    ∧ (process ⟨[mkPathPattern ['*']], false, false⟩ []
        [⟨['a'], .eager [1]⟩, ⟨['a'], .eager [2]⟩]).2.1 = [['a']]) :=
  ⟨by decide, by decide,
   (C3_same_path_dedup ['*'] ['a'] [1] [2] (by decide)).2 (by decide)⟩

/-- Claim C10: the join applied to emitted paths is POSIX path joining, so
an absolute item path discards the join root and an empty root leaves the
item path unchanged; consequently, in join mode the orchestrator labels an
absolutely-pathed item with its own path whatever the root is, and labels
any matched item with its own path when the root is empty. -/
theorem C10_join_discards_root :
    (∀ root path : List Char, path.head? = some '/' →
      osPathJoin root path = path)
  ∧ (∀ path : List Char, osPathJoin [] path = path)
  ∧ (∀ (pat root rest : List Char) (d : List Nat),
      globMatch pat ('/' :: rest) = true →
      (process ⟨[mkPathPattern pat], false, true⟩ root
          [⟨'/' :: rest, .eager d⟩]).1
        = [Emission.payload d ('/' :: rest)])
  ∧ (∀ (pat path : List Char) (d : List Nat),
      globMatch pat path = true →
      (process ⟨[mkPathPattern pat], false, true⟩ [] [⟨path, .eager d⟩]).1
        = [Emission.payload d path]) := by
  refine ⟨osPathJoin_absolute, osPathJoin_nil_root, ?_, ?_⟩
  · intro pat root rest d h
    simp [process, firstPass, patternsPass, patternPass, patternStep,
      check_path, PathPattern.check, mkPathPattern, UnpackResult.get_data,
      ledgerGet, ledgerAdd, dfltItem, h, osPathJoin_absolute]
  · intro pat path d h
    simp [process, firstPass, patternsPass, patternPass, patternStep,
      check_path, PathPattern.check, mkPathPattern, UnpackResult.get_data,
      ledgerGet, ledgerAdd, dfltItem, h, osPathJoin_nil_root]

theorem C10_join_discards_root_witness :
    globMatch ['*'] ['/', 'a'] = true ∧
    (process ⟨[mkPathPattern ['*']], false, true⟩ ['r']
        [⟨['/', 'a'], .eager [7]⟩]).1
      = [Emission.payload [7] ['/', 'a']] :=
  ⟨by decide, C10_join_discards_root.2.2.1 ['*'] ['r'] ['a'] [7] (by decide)⟩
